import Mathlib

/-!
# Verification of the munix-2026 VFS / driver core

A shallow embedding of the string utilities (`src/lib/core/string.c`),
path utilities (`src/lib/core/path.c`), the VFS mount table and driver
registries (`src/lib/drivers/vfs_fs.c`, `src/lib/drivers/vfs_file.c`),
the ramdisk and TTY character drivers
(`src/lib/drivers/chrdev/ramdisk.c`, `src/lib/drivers/chrdev/tty.c`)
and the CPIO filesystem read path (`src/lib/drivers/fs/cpiofs.c`),
together with theorems settling the specification's testable properties.

Strings are modelled as `List Nat` of byte values (the bytes before the
NUL terminator); `char` is signed on the target (i386), so byte values
are reinterpreted through `schar` wherever the C code compares `char`
values.  Machine integers (`loff_t`, i.e. 32-bit `long`) are modelled
as `Int`, with an explicit `% 2^32` at the single point where the code
converts a `loff_t` to `size_t` (`cpio_file_read`).
-/

namespace Munix

/-! ## Error numbers (`src/lib/core/errno.h`) -/

def EINVAL : Int := 9
def EBUSY : Int := 12
def EAGAIN : Int := 15
def ENOBUFS : Int := 21
def ENODEV : Int := 26
def ENOENT : Int := 33

/-! ## Byte-level string model (`src/lib/core/string.c`)

A C string is the list of its bytes before the terminating NUL.  The
target compiles `char` as signed, so comparisons in `strcmp`/`strncmp`/
`strchr` go through the signed reinterpretation `schar`. -/

/-- Signed `char` value of a byte (i386: `char` is signed 8-bit). -/
def schar (b : Nat) : Int :=
  if b % 256 < 128 then ((b % 256 : Nat) : Int) else ((b % 256 : Nat) : Int) - 256

/-- The three-way result produced by the comparison tail of `strcmp`:
`if (*s < *t) return -1; if (*s == *t) return 0; if (*s > *t) return 1;` -/
def cmp3 (x y : Int) : Int :=
  if x < y then -1 else if x = y then 0 else 1

/-- Byte read at a string position: the first byte, or the NUL terminator. -/
def strhead : List Nat → Int
  | [] => 0
  | c :: _ => schar c

/-- `strcmp` from string.c: advance while both bytes are non-NUL and equal,
then three-way compare the first differing (or terminating) bytes. -/
def strcmp : List Nat → List Nat → Int
  | c :: s', d :: t' =>
    if schar c ≠ 0 ∧ schar d ≠ 0 ∧ schar c = schar d then strcmp s' t'
    else cmp3 (schar c) (schar d)
  | s, t => cmp3 (strhead s) (strhead t)

/-- `strncmp` from string.c: like `strcmp` but comparing at most `n` bytes. -/
def strncmp : List Nat → List Nat → Nat → Int
  | _, _, 0 => 0
  | c :: s', d :: t', Nat.succ n =>
    if schar c ≠ 0 ∧ schar d ≠ 0 ∧ schar c = schar d then strncmp s' t' n
    else cmp3 (schar c) (schar d)
  | s, t, Nat.succ _ => cmp3 (strhead s) (strhead t)

/-- `strlen` from string.c: count bytes up to the first NUL. -/
def strlen (s : List Nat) : Nat := (s.takeWhile (· ≠ 0)).length

/-- The scanning loop of `strstr`: try each suffix of `str` while its first
byte is non-NUL, returning the index of the first suffix of which `substr`
is an `strncmp`-prefix.  (An empty `str` never enters the loop, so even an
empty `substr` is not found in it — exactly as in the C code.) -/
def strstrAux : List Nat → List Nat → Nat → Option Nat
  | [], _, _ => none
  | c :: s', sub, i =>
    if strncmp (c :: s') sub (strlen sub) = 0 then some i
    else strstrAux s' sub (i + 1)

/-- `strstr` from string.c, returning the byte offset of the first occurrence
of `sub` in `s` instead of a pointer (`none` = `NULL`). -/
def strstr (s sub : List Nat) : Option Nat := strstrAux s sub 0

/-- `strchr` from string.c, specialised to the question asked by the TTY
driver: does `strchr(s, ch)` return non-NULL?  The C loop compares each
byte of `s` *including the terminator* against `(char) ch`, so looking for
byte 0 always succeeds (it matches the terminator). -/
def strchr_found : List Nat → Nat → Bool
  | [], ch => schar ch == 0
  | c :: s', ch => if schar c == schar ch then true else strchr_found s' ch

/-- A well-formed C string: every byte is non-NUL and fits in one byte.
(The byte lists that model C strings satisfy this by construction.) -/
def WFStr (s : List Nat) : Prop := ∀ c ∈ s, 0 < c ∧ c < 256

instance : DecidablePred WFStr := fun s => by unfold WFStr; infer_instance

/-! ## Path utilities (`src/lib/core/path.c`) -/

/-- `path_strip_prefix(path, prefix)` (both non-NULL): `NULL` unless
`prefix` is an `strncmp`-prefix of `path`; on success, the remainder of
`path` past the prefix, also skipping one following `'/'`. -/
def path_strip_prefix (path pre : List Nat) : Option (List Nat) :=
  if strncmp path pre (strlen pre) ≠ 0 then none
  else
    let rest := path.drop (strlen pre)
    if rest.headD 0 == 47 then some rest.tail else some rest

/-! ## VFS mount list (`src/lib/drivers/vfs_fs.c`)

A superblock is modelled by its `s_mountpath`, the only field these
operations consult.  The global mount list is the list of mountpaths in
list order (head = front of `vfs_mount_list`). -/

/-- The walk in `vfs_mount_list_add`: index of the first entry whose
mountpath compares strictly greater than the new mountpath — the intended
sorted-insertion point (`list_for_each_entry` + `break`). -/
def vfs_mount_insert_point (l : List (List Nat)) (sb : List Nat) : Nat :=
  l.findIdx (fun pos => 0 < strcmp pos sb)

/-- `vfs_mount_list_add`: the C function walks the list to `pos`, the first
entry with strictly greater mountpath, but then calls
`list_add_tail(&sb->s_mount_list, &vfs_mount_list)`, which links the new
node before the global list *head* — i.e. appends it at the tail of the
whole list.  The computed `pos` is never used, so the net effect is a
plain append. -/
def vfs_mount_list_add (l : List (List Nat)) (sb : List Nat) : List (List Nat) :=
  l ++ [sb]

/-- The mount-list effect of a successful `fs_mountdev`: the mountpath is
copied into `s_mountpath[PATH_MAX = 128]` by `snprintf` (truncating to 127
bytes) and the superblock is handed to `vfs_mount_list_add`.  (Superblock
allocation and the driver's `sb_open` are elided: a *successful* call
always reaches `vfs_mount_list_add`, which is the only mount-list
mutation.) -/
def fs_mountdev (l : List (List Nat)) (mpath : List Nat) : List (List Nat) :=
  vfs_mount_list_add l (mpath.take 127)

/-- Invariant M1 / property P1 of the spec: mountpaths ascending in list
order. -/
def mountlist_sorted (l : List (List Nat)) : Prop :=
  l.Pairwise (fun a b => strcmp a b ≤ 0)

instance (l : List (List Nat)) : Decidable (mountlist_sorted l) :=
  inferInstanceAs (Decidable (l.Pairwise fun a b => strcmp a b ≤ 0))

/-- `find_mount_for_path`: iterate the mount list in reverse
(`list_for_each_entry_prev`) and return the first superblock whose
mountpath satisfies `strstr(abspath, mountpath) == abspath`, i.e. whose
first occurrence in `abspath` is at offset 0. -/
def find_mount_for_path (l : List (List Nat)) (abs : List Nat) : Option (List Nat) :=
  l.reverse.find? (fun mp => strstr abs mp == some 0)

/-! ### C1: sortedness of the mount list -/

/-- "/bin" -/
def pBin : List Nat := [47, 98, 105, 110]
/-- "/" -/
def pRoot : List Nat := [47]
/-- "/bin/hello" -/
def pBinHello : List Nat := [47, 98, 105, 110, 47, 104, 101, 108, 108, 111]
/-- "hello" -/
def pHello : List Nat := [104, 101, 108, 108, 111]

/-- C1, failing input: mounting "/bin" and then "/" (both calls succeed)
leaves the global mount list in the order ["/bin", "/"], and
`strcmp "/bin" "/" = 1 > 0`, so the list is *not* sorted ascending by
mountpath: `vfs_mount_list_add` computes the sorted insertion point but
appends at the global tail regardless. -/
theorem C1_mount_list_unsorted :
    fs_mountdev (fs_mountdev [] pBin) pRoot = [pBin, pRoot] ∧
    0 < strcmp pBin pRoot ∧
    ¬ mountlist_sorted (fs_mountdev (fs_mountdev [] pBin) pRoot) := by
  refine ⟨rfl, by decide, ?_⟩
  intro h
  rw [show fs_mountdev (fs_mountdev [] pBin) pRoot = [pBin, pRoot] from rfl] at h
  have h1 := List.rel_of_pairwise_cons h (List.mem_singleton.mpr rfl)
  have : strcmp pBin pRoot = 1 := by decide
  omega

/-! ## Driver registries (`vfs_file.c`, `vfs_fs.c`)

Driver operation tables are compared by pointer; an `ops` pointer is
modelled as a `Nat` identity.  A registry is a map from index to the
registered pointer (`none` = NULL slot). -/

def MAJORS_MAX : Nat := 5
def FSTYPES_MAX : Nat := 4

/-- `chrdev_register_inner(maj, fops)`: (error code, updated table). -/
def chrdev_register_inner (maj : Nat) (fops : Nat) (tbl : Nat → Option Nat) :
    Int × (Nat → Option Nat) :=
  if maj ≤ 0 ∨ MAJORS_MAX ≤ maj then (-EINVAL, tbl)
  else
    match tbl maj with
    | some cur => (if cur = fops then 0 else -EBUSY, tbl)
    | none => (0, fun i => if i = maj then some fops else tbl i)

/-- `chrdev_register(maj, fops)`: calls the inner function and logs its
result, but then executes `return maj;` — the computed error code is
discarded and the major number is returned unconditionally. -/
def chrdev_register (maj : Nat) (fops : Nat) (tbl : Nat → Option Nat) :
    Int × (Nat → Option Nat) :=
  let r := chrdev_register_inner maj fops tbl
  ((maj : Int), r.2)

/-- `fs_register_inner(fstypeid, ops)`: (error code, updated table). -/
def fs_register_inner (fstypeid : Nat) (ops : Nat) (tbl : Nat → Option Nat) :
    Int × (Nat → Option Nat) :=
  if fstypeid ≤ 0 ∨ FSTYPES_MAX ≤ fstypeid then (-EINVAL, tbl)
  else
    match tbl fstypeid with
    | some cur => (if cur = ops then 0 else -EBUSY, tbl)
    | none => (0, fun i => if i = fstypeid then some ops else tbl i)

/-- `fs_register(fstypeid, ops)`: logs and *returns* the inner result. -/
def fs_register (fstypeid : Nat) (ops : Nat) (tbl : Nat → Option Nat) :
    Int × (Nat → Option Nat) :=
  let r := fs_register_inner fstypeid ops tbl
  (r.1, r.2)

/-- The empty registry (all slots NULL). -/
def emptyTbl : Nat → Option Nat := fun _ => none

/-! ### C3: registration results -/

/-- C3, failing input for `chrdev_register`: `fs_register` follows the
claimed OK / OK / busy / invalid pattern (shown here at id 3 with two
distinct ops pointers 10 and 11, and at the out-of-range ids 0 and 4),
but `chrdev_register` returns the major number unconditionally:
registering a *different* pointer at an occupied major 3 returns 3
(not −EBUSY, though the table entry is indeed left unchanged), and the
out-of-range major 0 returns 0 — indistinguishable from success —
instead of −EINVAL. -/
theorem C3_chrdev_register_discards_result :
    -- fs_register behaves as the claim states:
    (fs_register 3 10 emptyTbl).1 = 0 ∧
    (fs_register 3 10 (fs_register 3 10 emptyTbl).2).1 = 0 ∧
    (fs_register 3 11 (fs_register 3 10 emptyTbl).2).1 = -EBUSY ∧
    (fs_register 3 11 (fs_register 3 10 emptyTbl).2).2 3 = some 10 ∧
    (fs_register 0 10 emptyTbl).1 = -EINVAL ∧
    (fs_register 4 10 emptyTbl).1 = -EINVAL ∧
    -- chrdev_register returns maj unconditionally:
    (chrdev_register 3 10 emptyTbl).1 = 3 ∧
    (chrdev_register 3 11 (chrdev_register 3 10 emptyTbl).2).1 = 3 ∧
    (chrdev_register 3 11 (chrdev_register 3 10 emptyTbl).2).1 ≠ -EBUSY ∧
    (chrdev_register 3 11 (chrdev_register 3 10 emptyTbl).2).2 3 = some 10 ∧
    (chrdev_register 0 10 emptyTbl).1 = 0 ∧
    (chrdev_register 0 10 emptyTbl).1 ≠ -EINVAL := by
  decide

/-! ## TTY open bounds (`tty.c`) -/

def TTY_CT : Nat := 2

/-- The minor-number guard of `tty_open_dev`: the C code rejects the open
with −ENODEV only when `min > TTY_CT`; any other minor goes on to index
the static array `ttys[TTY_CT]` at position `min`
(`struct tty *tty = &ttys[min];`).  The returned value is the array index
accessed (`none` = rejected before any access). -/
def tty_open_index (min : Nat) : Option Nat :=
  if min > TTY_CT then none else some min

/-- C10, failing input: minor 2 passes the guard (`2 > 2` is false), so
`tty_open_dev` accesses `ttys[2]` — but the array has `TTY_CT = 2`
elements, indices 0 and 1, so the access is out of bounds. -/
theorem C10_tty_open_minor2_out_of_bounds :
    tty_open_index 2 = some 2 ∧ ¬ (2 < TTY_CT) := by
  decide

/-! ## `file_lseek` (`vfs_file.c`) -/

/-- The fields of `struct file` that `file_lseek` touches. -/
structure CFile where
  pos : Int
  size : Int
  deriving DecidableEq

/-- SEEK constants from vfs.h. -/
def SEEK_SET : Nat := 1
def SEEK_CUR : Nat := 2
def SEEK_END : Nat := 3

/-- `file_lseek(f, off, whence)` for an open file (`f` and `f->f_op`
non-NULL), parameterised by the driver's optional `lseek` hook.  The hook
runs first and may fail or update the file; then `f_pos` is updated per
`whence`.  In every non-error path the function returns `res` — the hook's
result, or the initial 0 when the driver has no hook — never `f->f_pos`. -/
def file_lseek (hook : Option (CFile → Int → Nat → Int × CFile))
    (f : CFile) (off : Int) (whence : Nat) : Int × CFile :=
  let step :=
    match hook with
    | none => ((0 : Int), f)
    | some h => h f off whence
  if step.1 < 0 then step
  else
    if whence = SEEK_SET then (step.1, { step.2 with pos := off })
    else if whence = SEEK_CUR then (step.1, { step.2 with pos := step.2.pos + off })
    else if whence = SEEK_END then (step.1, { step.2 with pos := step.2.size + off })
    else (-EINVAL, step.2)

/-- C6, failing input: a file at position 5 whose driver supplies no
`lseek` hook.  `file_lseek(f, 0, SEEK_CUR)` does leave `f_pos` at 5, but
it returns `res = 0` (the hook result placeholder), not the current
position 5 — `return res;` in every `switch` arm discards the position. -/
theorem C6_lseek_cur_returns_res_not_pos :
    (file_lseek none ⟨5, 100⟩ 0 SEEK_CUR).2.pos = 5 ∧
    (file_lseek none ⟨5, 100⟩ 0 SEEK_CUR).1 = 0 ∧
    (file_lseek none ⟨5, 100⟩ 0 SEEK_CUR).1 ≠ 5 := by
  decide

/-! ## Ramdisk read (`ramdisk.c`)

A ramdisk device is its contents, a `List Nat` of bytes; `rd_size` is the
list's length.  `ramdisk_open_dev` snapshots `rd_size` into
`f->f_stat.f_size`, so a file opened on the ramdisk carries
`fsize = rd.length`.  Offsets are `loff_t` (signed), modelled as `Int`. -/

/-- The copy loop of `ramdisk_read`:
`for (; i < count && *off < size; i++, (*off)++, bdst++) *bdst = rd->addr[*off];`
returning the copied bytes and the final `*off`. -/
def ramdisk_copy (rd : List Nat) (fsize : Int) : Nat → Int → List Nat × Int
  | 0, off => ([], off)
  | Nat.succ n, off =>
    if off < fsize then
      let step := ramdisk_copy rd fsize n (off + 1)
      (rd.getD off.toNat 0 :: step.1, step.2)
    else ([], off)

/-- `ramdisk_read(f, dst, count, off)` with `fsize = f->f_stat.f_size`:
clamp a negative `*off` to 0, return EOF at or past `fsize`, otherwise run
the bounded copy loop.  Returns (bytes copied, final `*off`); the C return
value is the number of bytes copied. -/
def ramdisk_read (rd : List Nat) (fsize : Int) (off : Int) (count : Nat) :
    List Nat × Int :=
  let off := if off < 0 then 0 else off
  if off ≥ fsize then ([], off)
  else ramdisk_copy rd fsize count off

/-- Copy-loop characterisation: starting inside the snapshot
`fsize = rd.length` at a non-negative offset, the loop yields exactly
`min count (fsize - off)` bytes, namely the ramdisk contents at `off`,
and leaves `*off` advanced by that many bytes. -/
theorem ramdisk_copy_spec (rd : List Nat) (count : Nat) :
    ∀ off : Int, 0 ≤ off →
      ramdisk_copy rd (rd.length : Int) count off =
        ((rd.drop off.toNat).take (min count (rd.length - off.toNat)),
          off + (min count (rd.length - off.toNat) : Nat)) := by
  induction count with
  | zero =>
    intro off _
    simp [ramdisk_copy]
  | succ n ih =>
    intro off hoff
    by_cases h : off < (rd.length : Int)
    · have hlt : off.toNat < rd.length := by omega
      have ihs := ih (off + 1) (by omega)
      rw [ramdisk_copy, if_pos h, ihs]
      have htn : (off + 1).toNat = off.toNat + 1 := by omega
      have hdrop : rd.drop off.toNat = rd[off.toNat] :: rd.drop (off.toNat + 1) :=
        List.drop_eq_getElem_cons hlt
      have hgd : rd.getD off.toNat 0 = rd[off.toNat] := by
        simp [List.getD_eq_getElem?_getD, List.getElem?_eq_getElem hlt]
      have hmin : min (n + 1) (rd.length - off.toNat) =
          min n (rd.length - (off.toNat + 1)) + 1 := by omega
      rw [htn, hgd, hmin, hdrop, List.take_succ_cons]
      refine Prod.ext rfl ?_
      push_cast
      omega
    · have hge : rd.length - off.toNat = 0 := by omega
      rw [ramdisk_copy, if_neg h, hge]
      simp

/-! ### C7: ramdisk read semantics -/

/-- C7: for a file opened on a ramdisk (so `fsize = rd.length` was
snapshotted at open), a read at offset `off` with request `count`:
a negative offset is clamped to 0 and the read is exactly the read from
the start; an offset at or past the size returns 0 bytes; otherwise
exactly `min count (fsize - off)` bytes are copied from the ramdisk
contents starting at offset `off`, the offset is advanced by that amount,
and that count is the return value (the length of the bytes yielded). -/
theorem C7_ramdisk_read_bounds (rd : List Nat) (off : Int) (count : Nat) :
    (off < 0 →
      ramdisk_read rd (rd.length : Int) off count =
        ramdisk_read rd (rd.length : Int) 0 count) ∧
    (off ≥ (rd.length : Int) →
      ramdisk_read rd (rd.length : Int) off count = ([], off)) ∧
    (0 ≤ off → off < (rd.length : Int) →
      ramdisk_read rd (rd.length : Int) off count =
        ((rd.drop off.toNat).take (min count (rd.length - off.toNat)),
          off + (min count (rd.length - off.toNat) : Nat))) := by
  refine ⟨?_, ?_, ?_⟩
  · intro hneg
    simp only [ramdisk_read, if_pos hneg, if_neg (by omega : ¬ (0 : Int) < 0)]
  · intro hge
    have : ¬ off < 0 := by
      have : (0 : Int) ≤ (rd.length : Int) := by positivity
      omega
    simp only [ramdisk_read, if_neg this, if_pos hge]
  · intro h0 hlt
    have hnneg : ¬ off < 0 := by omega
    have hnge : ¬ off ≥ (rd.length : Int) := by omega
    simp only [ramdisk_read, if_neg hnneg, if_neg hnge]
    exact ramdisk_copy_spec rd count off h0

/-- Witness for C7 at `rd = [3,1,4,1,5]`, `off = 2`, `count = 9`:
offset 2 is in range, so the read yields the last three bytes and leaves
the offset at 5. -/
theorem C7_ramdisk_read_bounds_witness :
    (0 : Int) ≤ 2 ∧ (2 : Int) < (([3, 1, 4, 1, 5] : List Nat).length : Int) ∧
    ramdisk_read [3, 1, 4, 1, 5] (([3, 1, 4, 1, 5] : List Nat).length : Int) 2 9 =
      ([4, 1, 5], 5) :=
  ⟨by decide, by decide,
    by
      have h := (C7_ramdisk_read_bounds [3, 1, 4, 1, 5] 2 9).2.2
        (by decide) (by decide)
      rw [h]; decide⟩

/-! ## CPIO file read (`cpiofs.c`)

`cpio_file_read` reads the target file through the archive's backing
block device — in the deployed system a ramdisk, whose snapshot size is
the archive length.  `file_pread` (vfs_file.c) hands the driver a *copy*
of the caller-supplied offset, short-circuiting to 0 when `count` is 0. -/

/-- `file_pread` on a file opened over ramdisk contents `arch`: bytes
yielded by `ramdisk_read` at the supplied offset (the file's own position
is untouched). -/
def file_pread_ramdisk (arch : List Nat) (count : Nat) (off : Int) : List Nat :=
  if count = 0 then [] else (ramdisk_read arch (arch.length : Int) off count).1

/-- `cpio_file_read(f, dst, count, off)` for a CPIO file with data at
archive offset `foff` (`cfdata->foff`), target size `fsize`
(`f->f_stat.f_size`) and *file position* `fpos` (`f->f_pos`); `off` is the
offset the read actually uses (`*off`, which is `&f->f_pos` for
`file_read` but caller-supplied for `file_pread`).  The clamp
`count = f->f_stat.f_size - f->f_pos` converts the `loff_t` difference to
`size_t` (32-bit), hence the explicit `% 2^32`.  Returns
(bytes-read result, final `*off`). -/
def cpio_file_read (arch : List Nat) (foff fsize fpos off : Int) (count : Nat) :
    Int × Int :=
  let aoff := off + foff
  let count := if fsize < off + (count : Int)
    then ((fsize - fpos).emod (2 ^ 32)).toNat else count
  let res : Int := (file_pread_ramdisk arch count aoff).length
  let aoff := aoff + res
  (res, aoff - foff)

/-- C4, failing input: a 10-byte CPIO file at archive offset 0 inside a
32-byte archive, with the file's own position `f_pos = 0`, read via
`file_pread` at explicit offset `*pos = 8` with `count = 5`.  The clamp
uses `f_pos`, not `*pos`: `count` becomes `10 - 0 = 10` and the backing
`pread` returns 10 bytes — past the end of the target file — although the
claim allows at most `size - *pos = 2`.  (The final `*pos = 8 + 10` update
itself matches the claim.) -/
theorem C4_cpio_pread_clamps_with_fpos :
    (cpio_file_read (List.range 32) 0 10 0 8 5).1 = 10 ∧
    ¬ (cpio_file_read (List.range 32) 0 10 0 8 5).1 ≤ 10 - 8 ∧
    (cpio_file_read (List.range 32) 0 10 0 8 5).2 = 8 + 10 := by
  refine ⟨?_, ?_, ?_⟩ <;> decide

/-! ## TTY line discipline (`tty.c`)

Bytes received from the port device are fed one at a time through
`tty_inchar`; all echo output is written to the port device and is
collected here as a byte list.  A TTY instance is its flag word, input
buffer (`ibuf`/`ilen`), and the `ibuf_eol`/`ibuf_eof` bits. -/

def TTY_ECHO : Nat := 1
def TTY_ECHOCTL : Nat := 2
def TTY_COOKED : Nat := 4
def IBUFSZ : Nat := 256

/-- `isprint` from ctype.h on a (sign-extended) `char` value. -/
def isprint (c : Int) : Bool := 0x20 ≤ c && c ≤ 0x7e

/-- One lowercase hex digit (`hexdigit` in sprintf.c). -/
def hexdigit (d : Nat) : Nat := if d < 10 then 48 + d else 97 + (d - 10)

/-- The bytes produced by `file_printf(&tty->portdev, "\xNN", ch)` with
format `"\\x%02hhx"`: a backslash, `x`, and the byte's two lowercase hex
digits (zero-padded to width 2). -/
def hexEcho (ch : Nat) : List Nat :=
  [92, 120, hexdigit (ch % 256 / 16), hexdigit (ch % 256 % 16)]

/-- `echoc(tty, ch)`: bytes echoed to the port device for input byte `ch`.
Nothing without `ECHO`.  Verbatim when `ECHOCTL` is clear, when the byte
is printable, or when `strchr("\n\r\t", ch)` is non-NULL (which includes
`ch = '\0'`, matching the terminator).  Then caret notation for
`0x00 <= ch && ch < 0x1f` (strict, so 0x1f falls through), `"^?"` for
0x7f, and `"\xNN"` hex notation otherwise. -/
def echoc (flags : Nat) (ch : Nat) : List Nat :=
  if flags &&& TTY_ECHO = 0 then []
  else if flags &&& TTY_ECHOCTL = 0 ∨ isprint (schar ch) ∨
      strchr_found [10, 13, 9] ch then [ch]
  else if 0 ≤ schar ch ∧ schar ch < 0x1f then [94, (ch + 0x40) % 256]
  else if ch = 0x7f then [94, 63]
  else hexEcho ch

/-- `echos(tty, str)`: write `str` to the port device iff `ECHO` is set. -/
def echos (flags : Nat) (s : List Nat) : List Nat :=
  if flags &&& TTY_ECHO ≠ 0 then s else []

/-! ### C8: ECHOCTL rendering -/

/-- C8, failing inputs (flags = `ECHO|ECHOCTL`): byte `0x1f` (`^_`) is
*not* echoed in caret notation — the guard is `ch < 0x1f`, strict — but as
hex `"\x1f"`; and byte `0x00` (`^@`) is echoed verbatim, because
`strchr("\n\r\t", '\0')` matches the string's NUL terminator and so
returns non-NULL.  (Byte `0x1e` shows the caret branch working as
claimed, and `0x7f` the `"^?"` branch.) -/
theorem C8_echoctl_boundary_bytes :
    echoc 3 0x1f = [92, 120, 49, 102] ∧ echoc 3 0x1f ≠ [94, 95] ∧
    echoc 3 0x00 = [0] ∧ echoc 3 0x00 ≠ [94, 64] ∧
    echoc 3 0x1e = [94, 94] ∧ echoc 3 0x7f = [94, 63] := by
  decide

/-! ### TTY state machine -/

/-- The TTY fields driving input processing: `flags`, `ibuf[0..ilen)`,
`ibuf_eol`, `ibuf_eof`. -/
structure TTY where
  flags : Nat
  ibuf : List Nat
  eol : Bool
  eof : Bool
  deriving DecidableEq

/-- `add_to_inbuf`: append to `ibuf` (−ENOBUFS when full) and echo.
Returns (state, echoed bytes, result). -/
def add_to_inbuf (t : TTY) (ch : Nat) : TTY × List Nat × Int :=
  if t.ibuf.length = IBUFSZ then (t, [], -ENOBUFS)
  else ({ t with ibuf := t.ibuf ++ [ch] }, echoc t.flags ch, 0)

/-- `backspace`: drop the last buffered byte (if any) and echo `"\b \b"`. -/
def backspace (t : TTY) : TTY × List Nat :=
  if t.ibuf.length = 0 then (t, [])
  else ({ t with ibuf := t.ibuf.dropLast }, echos t.flags [8, 32, 8])

/-- The loop of `clearline`: `for (n = ilen; n; n--) backspace(tty);`. -/
def clearlineAux : TTY → Nat → TTY × List Nat
  | t, 0 => (t, [])
  | t, Nat.succ n =>
    let step := backspace t
    let rest := clearlineAux step.1 n
    (rest.1, step.2 ++ rest.2)

/-- `clearline`: backspace `ilen` times. -/
def clearline (t : TTY) : TTY × List Nat := clearlineAux t t.ibuf.length

/-- `on_eof` (the `^D` handler): set `ibuf_eol`; if the buffer is empty,
also set `ibuf_eof`. -/
def on_eof (t : TTY) : TTY :=
  { t with eol := true, eof := if t.ibuf.length = 0 then true else t.eof }

/-- `tty_inchar(tty, ch)`: raw mode appends directly; cooked mode refuses
input after an unread end-of-line, then dispatches the SPECIALCHARS table
in order — `'\n'` (endline + input), `^D` (endline, echo `"^D\n"`,
`on_eof`), `'\b'`/`0x7f` (backspace), `^U` (clearline) — and appends
anything else.  Returns (state, echoed bytes, result). -/
def tty_inchar (t : TTY) (ch : Nat) : TTY × List Nat × Int :=
  if t.flags &&& TTY_COOKED = 0 then add_to_inbuf t ch
  else if t.eol then (t, [], -ENOBUFS)
  else if ch = 10 then add_to_inbuf { t with eol := true } ch
  else if ch = 4 then
    let t := { t with eol := true }
    let e := echos t.flags [94, 68, 10]
    (on_eof t, e, 0)
  else if ch = 8 ∨ ch = 127 then
    let step := backspace t
    (step.1, step.2, 0)
  else if ch = 21 then
    let step := clearline t
    (step.1, step.2, 0)
  else add_to_inbuf t ch

/-- The fill loop at the top of `tty_read`: while `ilen < IBUFSZ` and
`ibuf_eol` is clear, read one byte from the port and feed it to
`tty_inchar`.  The port device is modelled as the queue of bytes it will
deliver; an empty queue makes the port read return −EAGAIN (`portres`),
breaking the loop.  Returns (state, unconsumed port bytes, echoed bytes,
final `portres`, early `tty_inchar` error if any). -/
def tty_fill : TTY → List Nat → Int → TTY × List Nat × List Nat × Int × Option Int
  | t, [], portres =>
    if t.ibuf.length < IBUFSZ ∧ t.eol = false then (t, [], [], -EAGAIN, none)
    else (t, [], [], portres, none)
  | t, ch :: rest, portres =>
    if t.ibuf.length < IBUFSZ ∧ t.eol = false then
      let step := tty_inchar t ch
      if step.2.2 < 0 then (step.1, rest, step.2.1, 1, some step.2.2)
      else
        let more := tty_fill step.1 rest 1
        (more.1, more.2.1, step.2.1 ++ more.2.2.1, more.2.2.2.1, more.2.2.2.2)
    else (t, ch :: rest, [], portres, none)

/-- `tty_read(f, dst, count)` (the offset is unused): fill from the port,
then dispatch — an empty buffer yields 0 on port EOF or on a pending
cooked-mode `ibuf_eof` (clearing both bits), else −EAGAIN; a cooked-mode
buffer without `ibuf_eol` yields −EAGAIN; otherwise `min(ilen, count)`
bytes leave the front of the buffer, the remainder shifts down, and
`ibuf_eol` is cleared if the buffer empties.  Returns
(state, unconsumed port bytes, echoed bytes, bytes delivered, result). -/
def tty_read (t : TTY) (port : List Nat) (count : Nat) :
    TTY × List Nat × List Nat × List Nat × Int :=
  let fill := tty_fill t port (-EAGAIN)
  let t := fill.1
  let port' := fill.2.1
  let echo := fill.2.2.1
  let portres := fill.2.2.2.1
  match fill.2.2.2.2 with
  | some e => (t, port', echo, [], e)
  | none =>
    if t.ibuf.length = 0 then
      if portres = 0 then (t, port', echo, [], 0)
      else if t.flags &&& TTY_COOKED ≠ 0 ∧ t.eof = true then
        ({ t with eof := false, eol := false }, port', echo, [], 0)
      else (t, port', echo, [], -EAGAIN)
    else if t.flags &&& TTY_COOKED ≠ 0 ∧ t.eol = false then
      (t, port', echo, [], -EAGAIN)
    else
      let retct := min t.ibuf.length count
      let out := t.ibuf.take retct
      let rest := t.ibuf.drop retct
      ({ t with ibuf := rest, eol := if rest.length = 0 then false else t.eol },
        port', echo, out, (retct : Int))

/-! ### C5: cooked-mode editing -/

/-- C5: a TTY with `ECHO|COOKED` (flags 5) and an empty buffer, whose port
delivers `"ab\b\bcd\n"`, echoes exactly `"ab\b \b\b \bcd\n"`; a read with
`count ≥ 3` consumes the whole port queue, returns exactly the 3 bytes
`"cd\n"`, and leaves the input buffer empty (with `ibuf_eol` cleared). -/
theorem C5_tty_cooked_editing (count : Nat) (h : 3 ≤ count) :
    tty_read ⟨5, [], false, false⟩ [97, 98, 8, 8, 99, 100, 10] count =
      (⟨5, [], false, false⟩, [],
        [97, 98, 8, 32, 8, 8, 32, 8, 99, 100, 10], [99, 100, 10], 3) := by
  have hfill : tty_fill ⟨5, [], false, false⟩ [97, 98, 8, 8, 99, 100, 10] (-EAGAIN) =
      (⟨5, [99, 100, 10], true, false⟩, [],
        [97, 98, 8, 32, 8, 8, 32, 8, 99, 100, 10], 1, none) := by
    decide
  have hmin : min ([99, 100, 10] : List Nat).length count = 3 :=
    Nat.min_eq_left (by simpa using h)
  rw [tty_read, hfill]
  simp [hmin, TTY_COOKED]
  omega

/-- Witness for C5 at `count = 3`. -/
theorem C5_tty_cooked_editing_witness :
    3 ≤ 3 ∧
    tty_read ⟨5, [], false, false⟩ [97, 98, 8, 8, 99, 100, 10] 3 =
      (⟨5, [], false, false⟩, [],
        [97, 98, 8, 32, 8, 8, 32, 8, 99, 100, 10], [99, 100, 10], 3) :=
  ⟨Nat.le_refl 3, C5_tty_cooked_editing 3 (Nat.le_refl 3)⟩

/-! ## Bridging the byte-level string functions to list predicates -/

theorem schar_ne_zero {c : Nat} (h0 : 0 < c) (h256 : c < 256) : schar c ≠ 0 := by
  unfold schar
  rw [Nat.mod_eq_of_lt h256]
  split <;> omega

theorem schar_inj {a b : Nat} (ha : a < 256) (hb : b < 256) :
    schar a = schar b ↔ a = b := by
  unfold schar
  rw [Nat.mod_eq_of_lt ha, Nat.mod_eq_of_lt hb]
  split <;> split <;> omega

theorem cmp3_eq_zero_iff {x y : Int} : cmp3 x y = 0 ↔ x = y := by
  unfold cmp3
  split <;> rename_i h
  · omega
  · split <;> rename_i h' <;> omega

theorem strlen_of_wf {s : List Nat} (h : WFStr s) : strlen s = s.length := by
  unfold strlen
  induction s with
  | nil => rfl
  | cons c s' ih =>
    have hc := h c (List.mem_cons_self c s')
    rw [List.takeWhile_cons_of_pos (by simp; omega), List.length_cons,
      ih (fun x hx => h x (List.mem_cons_of_mem c hx))]
    rfl

theorem strcmp_self (s : List Nat) : strcmp s s = 0 := by
  induction s with
  | nil => rfl
  | cons c s' ih =>
    rw [strcmp]
    by_cases h : schar c ≠ 0
    · rw [if_pos ⟨h, h, rfl⟩]; exact ih
    · rw [if_neg (by tauto)]; exact cmp3_eq_zero_iff.mpr rfl

/-- `strncmp(s, sub, len(sub)) == 0` is exactly "`sub` is a prefix of `s`"
for well-formed C strings. -/
theorem strncmp_zero_iff_isPre {sub : List Nat} :
    ∀ {s : List Nat}, WFStr sub → WFStr s →
      (strncmp s sub sub.length = 0 ↔ sub <+: s) := by
  induction sub with
  | nil =>
    intro s _ _
    simp [strncmp, List.nil_prefix]
  | cons d sub' ih =>
    intro s hsub hs
    have hd := hsub d (List.mem_cons_self d sub')
    have hdz : schar d ≠ 0 := schar_ne_zero hd.1 hd.2
    cases s with
    | nil =>
      have hred : strncmp [] (d :: sub') (d :: sub').length =
          cmp3 0 (schar d) := rfl
      rw [hred]
      constructor
      · intro h
        exact absurd (cmp3_eq_zero_iff.mp h).symm hdz
      · intro h
        exact absurd (List.eq_nil_of_prefix_nil h) (by simp)
    | cons c s' =>
      have hc := hs c (List.mem_cons_self c s')
      have hsub' : WFStr sub' := fun x hx => hsub x (List.mem_cons_of_mem d hx)
      have hs' : WFStr s' := fun x hx => hs x (List.mem_cons_of_mem c hx)
      have hred : strncmp (c :: s') (d :: sub') (d :: sub').length =
          if schar c ≠ 0 ∧ schar d ≠ 0 ∧ schar c = schar d
          then strncmp s' sub' sub'.length
          else cmp3 (schar c) (schar d) := rfl
      rw [hred]
      by_cases hcd : c = d
      · subst hcd
        have hcz : schar c ≠ 0 := schar_ne_zero hc.1 hc.2
        rw [if_pos ⟨hcz, hcz, rfl⟩, List.cons_prefix_cons]
        simp [ih hsub' hs']
      · have hne : schar c ≠ schar d := fun h => hcd ((schar_inj hc.2 hd.2).mp h)
        rw [if_neg (by tauto), List.cons_prefix_cons]
        constructor
        · intro h; exact absurd (cmp3_eq_zero_iff.mp h) hne
        · intro h; exact absurd h.1.symm hcd

theorem strstrAux_some_ge {sub : List Nat} :
    ∀ {s : List Nat} {i j : Nat}, strstrAux s sub i = some j → i ≤ j := by
  intro s
  induction s with
  | nil => intro i j h; simp [strstrAux] at h
  | cons c s' ih =>
    intro i j h
    rw [strstrAux] at h
    split at h
    · injection h with h'
      omega
    · exact Nat.le_of_succ_le (ih h)

/-- `strstr(s, sub) == s` (first occurrence at offset 0) is exactly
"`sub` is a prefix of `s`", for well-formed C strings and non-empty `s`. -/
theorem strstr_zero_iff_isPre {s sub : List Nat} (hs : WFStr s)
    (hsub : WFStr sub) (hne : s ≠ []) :
    strstr s sub = some 0 ↔ sub <+: s := by
  cases s with
  | nil => exact absurd rfl hne
  | cons c s' =>
    rw [strstr, strstrAux, strlen_of_wf hsub]
    split <;> rename_i h
    · simp [strncmp_zero_iff_isPre hsub hs |>.mp h]
    · constructor
      · intro hsome
        exact absurd (strstrAux_some_ge hsome) (by omega)
      · intro hpre
        exact absurd ((strncmp_zero_iff_isPre hsub hs).mpr hpre) h

/-- `find?` on a `Pairwise`-ordered list: every matching element is
related to the found (first matching) one, or is it. -/
theorem find?_pairwise_first {α : Type} {S : α → α → Prop} {q : α → Bool} :
    ∀ (lr : List α), lr.Pairwise S → ∀ x₀, lr.find? q = some x₀ →
      ∀ y ∈ lr, q y → S x₀ y ∨ y = x₀ := by
  intro lr
  induction lr with
  | nil => intro _ x₀ h; simp at h
  | cons a t ih =>
    intro hpw x₀ hfind y hy hqy
    rcases List.pairwise_cons.mp hpw with ⟨ha, ht⟩
    by_cases hqa : q a
    · rw [List.find?_cons_of_pos _ hqa] at hfind
      cases hfind
      rcases List.mem_cons.mp hy with rfl | hyt
      · exact Or.inr rfl
      · exact Or.inl (ha y hyt)
    · rw [List.find?_cons_of_neg _ (by simpa using hqa)] at hfind
      rcases List.mem_cons.mp hy with rfl | hyt
      · exact absurd hqy hqa
      · exact ih ht x₀ hfind y hyt hqy

/-! ### C2: longest-prefix mount lookup -/

/-- C2, counterexample to the claim as stated: the state reached by
mounting "/bin" and then "/" is a mount-list state in which a mountpath
("/bin") is a prefix of "/bin/hello", yet `find_mount_for_path` returns
the "/" mount — not the mount with the lexicographically greatest prefix,
since `strcmp "/bin" "/" > 0`.  (The reverse iteration sees the appended
"/" first; the sortedness the lookup relies on was broken by
`vfs_mount_list_add`, cf. C1.) -/
theorem C2_find_mount_counterexample :
    fs_mountdev (fs_mountdev [] pBin) pRoot = [pBin, pRoot] ∧
    find_mount_for_path [pBin, pRoot] pBinHello = some pRoot ∧
    pBin <+: pBinHello ∧
    0 < strcmp pBin pRoot := by
  refine ⟨rfl, by decide, ⟨[47, 104, 101, 108, 108, 111], rfl⟩, by decide⟩

/-- C2 as amended: *for every mount-list state sorted ascending by
mountpath* (invariant M1 — which `vfs_mount_list_add` fails to maintain,
cf. C1) in which at least one mountpath is a prefix of the non-empty
absolute path `p`, `find_mount_for_path` returns a mount whose mountpath
is a prefix of `p` and is lexicographically greatest among all mountpaths
in the list that are prefixes of `p`.  In particular, with mounts at "/"
and "/bin" in sorted order, looking up "/bin/hello" yields the "/bin"
mount, and stripping the mountpath leaves relative path "hello". -/
theorem C2_find_mount_longest_match (l : List (List Nat)) (p : List Nat)
    (hsort : mountlist_sorted l) (hwl : ∀ mp ∈ l, WFStr mp) (hwp : WFStr p)
    (hne : p ≠ []) (hcov : ∃ mp ∈ l, mp <+: p) :
    (∃ m₀, find_mount_for_path l p = some m₀ ∧ m₀ <+: p ∧
      ∀ mp ∈ l, mp <+: p → strcmp mp m₀ ≤ 0) ∧
    find_mount_for_path [pRoot, pBin] pBinHello = some pBin ∧
    path_strip_prefix pBinHello pBin = some pHello := by
  refine ⟨?_, by decide, by decide⟩
  obtain ⟨mp, hmp, hpre⟩ := hcov
  have hq : (strstr p mp == some 0) = true :=
    beq_iff_eq.mpr ((strstr_zero_iff_isPre hwp (hwl mp hmp) hne).mpr hpre)
  have hsome : (l.reverse.find? (fun mp => strstr p mp == some 0)).isSome :=
    List.find?_isSome.mpr ⟨mp, List.mem_reverse.mpr hmp, hq⟩
  obtain ⟨m₀, hfind⟩ := Option.isSome_iff_exists.mp hsome
  have hm₀mem : m₀ ∈ l := List.mem_reverse.mp (List.mem_of_find?_eq_some hfind)
  have hm₀pre : m₀ <+: p := by
    have := List.find?_some hfind
    exact (strstr_zero_iff_isPre hwp (hwl m₀ hm₀mem) hne).mp (beq_iff_eq.mp this)
  refine ⟨m₀, hfind, hm₀pre, ?_⟩
  intro mp' hmp' hpre'
  have hpw : l.reverse.Pairwise (fun a b => strcmp b a ≤ 0) :=
    List.pairwise_reverse.mpr hsort
  have hq' : (strstr p mp' == some 0) = true :=
    beq_iff_eq.mpr ((strstr_zero_iff_isPre hwp (hwl mp' hmp') hne).mpr hpre')
  rcases find?_pairwise_first l.reverse hpw m₀ hfind mp'
      (List.mem_reverse.mpr hmp') hq' with h | h
  · exact h
  · rw [h, strcmp_self]

/-- Witness for C2 (amended): the sorted two-mount list ["/", "/bin"] with
path "/bin/hello". -/
theorem C2_find_mount_longest_match_witness :
    mountlist_sorted [pRoot, pBin] ∧
    (∃ m₀, find_mount_for_path [pRoot, pBin] pBinHello = some m₀ ∧
      m₀ <+: pBinHello ∧
      ∀ mp ∈ [pRoot, pBin], mp <+: pBinHello → strcmp mp m₀ ≤ 0) :=
  ⟨by decide,
    (C2_find_mount_longest_match [pRoot, pBin] pBinHello
      (by decide)
      (by decide)
      (by decide) (by decide)
      ⟨pRoot, by decide, ⟨[98, 105, 110, 47, 104, 101, 108, 108, 111], rfl⟩⟩).1⟩

/-! ## `path_join` (`path.c`)

`path_join` formats into a bounded destination buffer with repeated
`snprintf(pos, BUFREM(pos, end), "%s", ...)` calls.  The buffer is a byte
list; the C string held in the buffer is read back by `cstr` (bytes up to
the first NUL). -/

/-- The C string currently held in a buffer: bytes up to the first NUL. -/
def cstr (buf : List Nat) : List Nat := buf.takeWhile (· ≠ 0)

/-- `snprintf(dst + pos, BUFREM(dst + pos, dst + dstsz), "%s", s)`:
`BUFREM` yields 0 when `pos` is at or past the end, and `snprintf` with
size 0 writes nothing; otherwise `n = dstsz - pos` bytes are available,
the output characters are the bytes of `s` up to its NUL, each written
only while in bounds, and the terminator lands after them or — when they
fill the window — on its last byte.  The return value is the full output
length (what *would* have been written). -/
def snprintf_str (buf : List Nat) (dstsz pos : Nat) (s : List Nat) :
    List Nat × Nat :=
  if dstsz ≤ pos then (buf, strlen s)
  else
    let n := dstsz - pos
    let eff := s.takeWhile (· ≠ 0)
    let stored := if eff.length < n then eff ++ [0] else eff.take (n - 1) ++ [0]
    (buf.take pos ++ stored ++ buf.drop (pos + stored.length), eff.length)

/-- `int path_isabs = b && b[0] == '/';` (an empty `b` reads its NUL). -/
def pathIsAbs : Option (List Nat) → Bool
  | some bs => bs.headD 0 == 47
  | none => false

/-- `path_join(dst, dstsz, a, b)` over an initial buffer `buf` of `dstsz`
bytes: if `b` is non-NULL and absolute (`b[0] == '/'`), only `b` is
emitted; otherwise `a` (when non-NULL) is emitted, then — when `b` is
non-NULL, something was emitted, and the last emitted byte (`*(pos - 1)`)
is not `'/'` — a `"/"` separator, then `b`.  Returns (final buffer,
`pos - dst`). -/
def path_join (dstsz : Nat) (buf : List Nat) (a b : Option (List Nat)) :
    List Nat × Nat :=
  let step1 : List Nat × Nat :=
    if pathIsAbs b = false ∧ a.isSome then
      let w := snprintf_str buf dstsz 0 (a.getD [])
      if b.isSome ∧ w.2 ≠ 0 ∧ w.1.getD (w.2 - 1) 0 ≠ 47 then
        let w2 := snprintf_str w.1 dstsz w.2 [47]
        (w2.1, w.2 + w2.2)
      else (w.1, w.2)
    else (buf, 0)
  if b.isSome then
    let w3 := snprintf_str step1.1 dstsz step1.2 (b.getD [])
    (w3.1, step1.2 + w3.2)
  else step1

/-- The separator `path_join` inserts between `a` and a relative `b`:
a `'/'` iff `a` is non-empty and does not already end in `'/'`. -/
def joinSep (a : List Nat) : List Nat :=
  if a ≠ [] ∧ a.getLast? ≠ some 47 then [47] else []

/-- The characters around the splice point of the join: the last byte of
`a`, the separator, and the first byte of `b` — every adjacent pair of
result bytes that crosses the `a`/`b` boundary lies in this window. -/
def spliceRegion (a b : List Nat) : List Nat :=
  a.drop (a.length - 1) ++ joinSep a ++ b.take 1

/-! ### Supporting lemmas for the buffer model -/

theorem takeWhile_ne_zero {s : List Nat} (h : ∀ c ∈ s, c ≠ 0) :
    s.takeWhile (· ≠ 0) = s := by
  induction s with
  | nil => rfl
  | cons c s' ih =>
    rw [List.takeWhile_cons_of_pos (by simpa using h c (List.mem_cons_self c s')),
      ih (fun x hx => h x (List.mem_cons_of_mem c hx))]

theorem cstr_append_zero {A junk : List Nat} (h : ∀ c ∈ A, c ≠ 0) :
    cstr (A ++ 0 :: junk) = A := by
  induction A with
  | nil => simp [cstr]
  | cons c A' ih =>
    rw [List.cons_append, cstr,
      List.takeWhile_cons_of_pos (by simpa using h c (List.mem_cons_self c A'))]
    have := ih (fun x hx => h x (List.mem_cons_of_mem c hx))
    rw [cstr] at this
    rw [this]

theorem cstr_append_of_ne :
    ∀ (A : List Nat), (∀ c ∈ A, c ≠ 0) →
      ∀ rest : List Nat, cstr (A ++ rest) = A ++ cstr rest := by
  intro A
  induction A with
  | nil => intro _ rest; simp
  | cons c A' ih =>
    intro hA rest
    rw [List.cons_append, cstr,
      List.takeWhile_cons_of_pos (by simpa using hA c (List.mem_cons_self c A'))]
    have := ih (fun x hx => hA x (List.mem_cons_of_mem c hx)) rest
    rw [cstr] at this
    rw [this, List.cons_append]

theorem cstr_zero (junk : List Nat) : cstr (0 :: junk) = [] := by
  simp [cstr]

theorem cstr_cons_ne (c : Nat) (h : c ≠ 0) (junk : List Nat) :
    cstr (c :: junk) = c :: cstr junk := by
  rw [cstr, List.takeWhile_cons_of_pos (by simpa using h), cstr]

/-- The fitting case of a `"%s"` write: with room for the string and its
terminator, the bytes land at `pos`, a NUL follows them, the rest of the
buffer is untouched, and the string length is returned. -/
theorem snprintf_str_fits (buf : List Nat) (dstsz pos : Nat) (s : List Nat)
    (hw : ∀ c ∈ s, c ≠ 0) (hfit : pos + s.length < dstsz) :
    snprintf_str buf dstsz pos s =
      (buf.take pos ++ s ++ 0 :: buf.drop (pos + s.length + 1), s.length) := by
  have h1 : ¬ dstsz ≤ pos := by omega
  rw [snprintf_str, if_neg h1]
  simp only [takeWhile_ne_zero hw]
  rw [if_pos (by omega : s.length < dstsz - pos)]
  simp [List.append_assoc, Nat.add_assoc]

theorem WFStr_ne_zero {s : List Nat} (h : WFStr s) : ∀ c ∈ s, c ≠ 0 :=
  fun c hc => (h c hc).1.ne'

/-! ### Double-slash-freeness helpers -/

theorem take2_ne_of_short {l : List Nat} (h : l.length ≤ 1) :
    ∀ i, (l.drop i).take 2 ≠ [47, 47] := by
  intro i hc
  have hlen := congrArg List.length hc
  simp [List.length_take, List.length_drop] at hlen
  omega

theorem take2_ne_pair {x y : Nat} (hxy : x ≠ 47 ∨ y ≠ 47) :
    ∀ i, (([x, y] : List Nat).drop i).take 2 ≠ [47, 47] := by
  intro i hc
  rcases i with _ | _ | i
  · simp at hc
    rcases hxy with h | h
    · exact h hc.1
    · exact h hc.2
  · simp at hc
  · simp at hc

theorem take2_ne_v47w {v w : Nat} (hv : v ≠ 47) (hw : w ≠ 47) :
    ∀ i, (([v, 47, w] : List Nat).drop i).take 2 ≠ [47, 47] := by
  intro i hc
  rcases i with _ | _ | _ | i
  · simp at hc
    exact hv hc
  · simp at hc
    exact hw hc
  · simp at hc
  · simp at hc

/-- No `"//"` occurs in the splice window of a join with a relative `b`. -/
theorem spliceRegion_take2_ne (a b : List Nat) (hb : b.headD 0 ≠ 47) :
    ∀ i, ((spliceRegion a b).drop i).take 2 ≠ [47, 47] := by
  have hbtake : b.take 1 = [] ∨ ∃ w, w ≠ 47 ∧ b.take 1 = [w] := by
    cases b with
    | nil => exact Or.inl rfl
    | cons w b' => exact Or.inr ⟨w, by simpa using hb, rfl⟩
  rcases List.eq_nil_or_concat a with rfl | ⟨a', v, rfl⟩
  · apply take2_ne_of_short
    rcases hbtake with h | ⟨w, _, h⟩ <;> simp [spliceRegion, joinSep, h]
  · simp only [List.concat_eq_append]
    have hlen1 : (a' ++ [v]).length - 1 = a'.length := by simp
    have hdropa : (a' ++ [v]).drop ((a' ++ [v]).length - 1) = [v] := by
      rw [hlen1, List.drop_left]
    have hlast : (a' ++ [v]).getLast? = some v := List.getLast?_concat a'
    by_cases hv : v = 47
    · have hsep : joinSep (a' ++ [v]) = [] := by
        rw [joinSep, if_neg (by simp [hlast, hv])]
      rcases hbtake with h | ⟨w, hw, h⟩
      · apply take2_ne_of_short
        simp [spliceRegion, hdropa, hsep, h]
      · have hreg : spliceRegion (a' ++ [v]) b = [v, w] := by
          simp [spliceRegion, hdropa, hsep, h]
        rw [hreg]
        exact take2_ne_pair (Or.inr hw)
    · have hsep : joinSep (a' ++ [v]) = [47] := by
        rw [joinSep, if_pos (by simp [hlast, hv])]
      rcases hbtake with h | ⟨w, hw, h⟩
      · have hreg : spliceRegion (a' ++ [v]) b = [v, 47] := by
          simp [spliceRegion, hdropa, hsep, h]
        rw [hreg]
        exact take2_ne_pair (Or.inl hv)
      · have hreg : spliceRegion (a' ++ [v]) b = [v, 47, w] := by
          simp [spliceRegion, hdropa, hsep, h]
        rw [hreg]
        exact take2_ne_v47w hv hw

/-! ### C9: the join property -/

/-- C9: for strings `a` and `b` whose join fits in the destination buffer
(with room for the separator and terminator: `|a| + |b| + 2 ≤ dstsz`), the
string `path_join` leaves in the buffer is: `b` itself when `b` starts
with `'/'`; otherwise `a ++ sep ++ b` where the `'/'` separator `sep` is
inserted iff `a` is non-empty and does not already end with `'/'` — so
the result starts with `a`, ends with `b`, and no `"//"` occurs in the
splice window. -/
theorem C9_path_join_splice (dstsz : Nat) (buf a b : List Nat)
    (hbuf : buf.length = dstsz) (hwa : WFStr a) (hwb : WFStr b)
    (hfits : a.length + b.length + 2 ≤ dstsz) :
    (b.headD 0 = 47 → cstr (path_join dstsz buf (some a) (some b)).1 = b) ∧
    (b.headD 0 ≠ 47 →
      cstr (path_join dstsz buf (some a) (some b)).1 = a ++ joinSep a ++ b ∧
      a <+: a ++ joinSep a ++ b ∧
      b <:+ a ++ joinSep a ++ b ∧
      ∀ i, ((spliceRegion a b).drop i).take 2 ≠ [47, 47]) := by
  have hwa' := WFStr_ne_zero hwa
  have hwb' := WFStr_ne_zero hwb
  constructor
  · intro h47
    have habs : pathIsAbs (some b) = true := beq_iff_eq.mpr h47
    have e3 := snprintf_str_fits buf dstsz 0 b hwb' (by omega)
    rw [List.take_zero, List.nil_append, Nat.zero_add] at e3
    simp only [path_join, habs, Option.isSome_some, Option.getD_some]
    rw [if_pos trivial, if_neg (by simp)]
    simp [e3, cstr_append_zero hwb']
  · intro h47
    have hnabs : pathIsAbs (some b) = false := beq_eq_false_iff_ne.mpr h47
    refine ⟨?_, ⟨joinSep a ++ b, by simp⟩, ⟨a ++ joinSep a, by simp⟩,
      spliceRegion_take2_ne a b h47⟩
    have e1 := snprintf_str_fits buf dstsz 0 a hwa' (by omega)
    rw [List.take_zero, List.nil_append, Nat.zero_add] at e1
    by_cases ha : a = []
    · subst ha
      simp only [List.nil_append, List.length_nil] at e1
      have hsep : joinSep ([] : List Nat) = [] := by simp [joinSep]
      have e3 := snprintf_str_fits (0 :: buf.tail) dstsz 0 b hwb' (by omega)
      rw [List.take_zero, List.nil_append, Nat.zero_add] at e3
      simp only [path_join, hnabs, Option.isSome_some, Option.getD_some, e1]
      rw [if_pos trivial, if_pos ⟨trivial, trivial⟩, if_neg (by simp)]
      simp [e3, hsep, cstr_append_zero hwb']
    · obtain ⟨a', v, rfl⟩ : ∃ a' v, a = a' ++ [v] := by
        rcases List.eq_nil_or_concat a with h | ⟨a', v, h⟩
        · exact absurd h ha
        · exact ⟨a', v, by simpa using h⟩
      have hlen : (a' ++ [v]).length = a'.length + 1 := by simp
      have hlast : (a' ++ [v]).getLast? = some v := List.getLast?_concat a'
      have hgd : ((a' ++ [v]) ++ 0 :: buf.drop ((a' ++ [v]).length + 1)).getD
          ((a' ++ [v]).length - 1) 0 = v := by
        rw [List.getD_eq_getElem?_getD,
          List.getElem?_append_left (by omega : (a' ++ [v]).length - 1 < (a' ++ [v]).length),
          show (a' ++ [v]).length - 1 = a'.length by omega,
          List.getElem?_concat_length]
        rfl
      have hAB : ∀ c ∈ (a' ++ [v]) ++ b, c ≠ 0 := by
        intro c hc
        rcases List.mem_append.mp hc with h | h
        · exact hwa' c h
        · exact hwb' c h
      by_cases hv : v = 47
      · -- a ends in '/': no separator
        have hsep : joinSep (a' ++ [v]) = [] := by
          rw [joinSep, if_neg (by simp [hlast, hv])]
        have e3 := snprintf_str_fits
          ((a' ++ [v]) ++ 0 :: buf.drop ((a' ++ [v]).length + 1)) dstsz
          (a' ++ [v]).length b hwb' (by omega)
        rw [List.take_left] at e3
        have ha'' : ∀ c ∈ a', c ≠ 0 := fun c hc => hwa' c (List.mem_append_left _ hc)
        have hv0 : v ≠ 0 := hwa' v (by simp)
        simp only [path_join, hnabs, Option.isSome_some, Option.getD_some, e1]
        rw [if_pos trivial, if_pos ⟨trivial, trivial⟩,
          if_neg (fun hcon => hcon.2.2 (hgd.trans hv))]
        simp only [e3]
        simp [hsep, cstr_append_of_ne a' ha'', cstr_cons_ne v hv0,
          cstr_append_of_ne b hwb', cstr_zero]
      · -- separator inserted
        have hsep : joinSep (a' ++ [v]) = [47] := by
          rw [joinSep, if_pos (by simp [hlast, hv])]
        have e2 := snprintf_str_fits
          ((a' ++ [v]) ++ 0 :: buf.drop ((a' ++ [v]).length + 1)) dstsz
          (a' ++ [v]).length [47] (by simp) (by simp; omega)
        rw [List.take_left] at e2
        have ha'' : ∀ c ∈ a', c ≠ 0 := fun c hc => hwa' c (List.mem_append_left _ hc)
        have hv0 : v ≠ 0 := hwa' v (by simp)
        simp only [path_join, hnabs, Option.isSome_some, Option.getD_some, e1]
        rw [if_pos trivial, if_pos ⟨trivial, trivial⟩,
          if_pos ⟨trivial, by simp [hlen], fun h => hv (hgd.symm.trans h)⟩]
        simp only [e2]
        have e3 := snprintf_str_fits
          (a' ++ [v] ++ [47] ++
            0 :: List.drop ((a' ++ [v]).length + [47].length + 1)
              (a' ++ [v] ++ 0 :: List.drop ((a' ++ [v]).length + 1) buf))
          dstsz ((a' ++ [v]).length + [47].length) b hwb' (by simp; omega)
        have htake : (a' ++ [v] ++ [47] ++
            0 :: List.drop ((a' ++ [v]).length + [47].length + 1)
              (a' ++ [v] ++ 0 :: List.drop ((a' ++ [v]).length + 1) buf)).take
            ((a' ++ [v]).length + [47].length) = a' ++ [v] ++ [47] := by
          rw [show (a' ++ [v]).length + [47].length = (a' ++ [v] ++ [47]).length
            from by simp]
          exact List.take_left _ _
        simp only [e3, htake]
        simp [hsep, cstr_append_of_ne a' ha'', cstr_cons_ne v hv0,
          cstr_cons_ne 47 (by omega), cstr_append_of_ne b hwb', cstr_zero]

/-- Witness for C9 at `a = "usr"`, `b = "bin"`, a zeroed 16-byte buffer. -/
theorem C9_path_join_splice_witness :
    (List.replicate 16 0 : List Nat).length = 16 ∧
    WFStr [117, 115, 114] ∧ WFStr [98, 105, 110] ∧
    ([117, 115, 114] : List Nat).length + ([98, 105, 110] : List Nat).length + 2 ≤ 16 ∧
    (([98, 105, 110] : List Nat).headD 0 ≠ 47 →
      cstr (path_join 16 (List.replicate 16 0)
          (some [117, 115, 114]) (some [98, 105, 110])).1 =
        [117, 115, 114] ++ joinSep [117, 115, 114] ++ [98, 105, 110] ∧
      [117, 115, 114] <+: [117, 115, 114] ++ joinSep [117, 115, 114] ++ [98, 105, 110] ∧
      [98, 105, 110] <:+ [117, 115, 114] ++ joinSep [117, 115, 114] ++ [98, 105, 110] ∧
      ∀ i, ((spliceRegion [117, 115, 114] [98, 105, 110]).drop i).take 2 ≠ [47, 47]) :=
  ⟨by decide, by decide, by decide, by decide,
    (C9_path_join_splice 16 (List.replicate 16 0) [117, 115, 114] [98, 105, 110]
      (by decide) (by decide) (by decide) (by decide)).2⟩

end Munix
